import Mathlib

/-!
Verification development for the M365-Rokid-HUD scooter protocol core.

The development shallowly embeds two layers of the repository:

* the command layer of `ninebot-ble/src/session/lock.rs` and `light.rs`
  (typed scooter commands and their wire encoding), and
* the foreign boundary of `ninebot-ffi/src/lib.rs` (handshake, login,
  encrypt, decrypt, freeSession), modelled as explicit state passing over
  a heap of raw-pointer-addressed slots, with the `mi_crypto` core kept
  as an abstract parameter (its source file is not part of the sources
  under verification; only its call sites in `lib.rs` are).

Byte arrays are lists of byte values (`Nat` below 256 at the call sites
that matter); machine-integer truncation (`counter as u32` on a `jlong`)
is modelled with explicit `% 2^32` on `Int`.
-/

namespace M365

/-- Byte strings exchanged across the boundary. -/
abbrev Bytes := List Nat

/-! ## Command layer (`ninebot-ble/src/session`) -/

/-- Frame direction byte (`Direction::MasterToMotor` = 0x20 per the module
docs of `lock.rs` and `light.rs`). -/
inductive Direction where
  | MasterToMotor
deriving DecidableEq

/-- Wire byte of a direction. -/
def Direction.toByte : Direction → Nat
  | .MasterToMotor => 0x20

/-- Read/write operation byte (0x01 = read, 0x03 = write). -/
inductive ReadWrite where
  | Read
  | Write
deriving DecidableEq

/-- Wire byte of an operation. -/
def ReadWrite.toByte : ReadWrite → Nat
  | .Read => 0x01
  | .Write => 0x03

/-- Attribute (register) addresses used by the lock and light modules:
lock = 0x70, unlock = 0x71, tail light = 0x7D. -/
inductive Attribute where
  | Lock
  | Unlock
  | TailLight
deriving DecidableEq

/-- Wire byte of an attribute address. -/
def Attribute.toByte : Attribute → Nat
  | .Lock => 0x70
  | .Unlock => 0x71
  | .TailLight => 0x7D

/-- A typed scooter command, as built by `lock.rs` and `light.rs`. -/
structure ScooterCommand where
  direction : Direction
  read_write : ReadWrite
  attr : Attribute
  payload : Bytes
deriving DecidableEq

/-- Modelled from the spec: `ScooterCommand::as_bytes` lives in
`session/commands.rs`, which is not among the sources; the wire format is
fixed by spec sections 4.1 and 6 and asserted byte-for-byte by the tests in
`lock.rs` and `light.rs`: `[length, direction, operation, attribute,
payload...]` with `length = payload.length + 2`. -/
def ScooterCommand.as_bytes (c : ScooterCommand) : Bytes :=
  (c.payload.length + 2) :: c.direction.toByte :: c.read_write.toByte ::
    c.attr.toByte :: c.payload

/-- The session object of the command layer. The transport behind
`MiSession::send` is an external collaborator; the session is modelled by
the sequence of frames it has sent. -/
structure MiSession where
  sent : List Bytes
deriving DecidableEq

/-- Modelled from the spec: `MiSession::send` (in `session/mod.rs`, not
among the sources) encrypts and writes a frame to the transport, an
excluded collaborator; it is modelled as recording the encoded frame. -/
def MiSession.send (s : MiSession) (cmd : ScooterCommand) : MiSession :=
  { s with sent := s.sent ++ [cmd.as_bytes] }

/-- `MiSession::lock` (`lock.rs`): write payload `[0x01, 0x00]` to the
lock attribute. -/
def MiSession.lock (s : MiSession) : MiSession :=
  s.send { direction := .MasterToMotor, read_write := .Write,
           attr := .Lock, payload := [0x01, 0x00] }

/-- `MiSession::unlock` (`lock.rs`): write payload `[0x01, 0x00]` to the
unlock attribute. -/
def MiSession.unlock (s : MiSession) : MiSession :=
  s.send { direction := .MasterToMotor, read_write := .Write,
           attr := .Unlock, payload := [0x01, 0x00] }

/-- `MiSession::set_lock` (`lock.rs`): lock when `locked`, else unlock. -/
def MiSession.set_lock (s : MiSession) (locked : Bool) : MiSession :=
  if locked then s.lock else s.unlock

/-- `MiSession::light_on` (`light.rs`): write payload `[0x02, 0x00]` to the
tail-light attribute. -/
def MiSession.light_on (s : MiSession) : MiSession :=
  s.send { direction := .MasterToMotor, read_write := .Write,
           attr := .TailLight, payload := [0x02, 0x00] }

/-- `MiSession::light_off` (`light.rs`): write payload `[0x00, 0x00]` to
the tail-light attribute. -/
def MiSession.light_off (s : MiSession) : MiSession :=
  s.send { direction := .MasterToMotor, read_write := .Write,
           attr := .TailLight, payload := [0x00, 0x00] }

/-- `MiSession::set_light` (`light.rs`): light on when the flag is true, else off. -/
def MiSession.set_light (s : MiSession) (turnOn : Bool) : MiSession :=
  if turnOn then s.light_on else s.light_off

/-! ## Foreign boundary (`ninebot-ffi/src/lib.rs`)

`lib.rs` stores state across JNI calls by handing the Java side the raw
address of a `Box`-allocated object as a `jlong`. The embedding makes
that memory explicit: a heap of slots addressed by positive integers
(address 0 is the null pointer), where a slot is a live key-exchange
context, a live session, or freed memory. Any dereference or free of a
slot that is not live of the expected type is undefined behaviour in the
Rust source and is modelled by the distinguished outcome `FfiResult.ub`
(resp. `FreeOutcome.ub`). `byte_array_from_slice(&[])` — the generic
failure sentinel of `lib.rs` — is `FfiResult.bytes []`. -/

/-- `KeyExchangeState` of `lib.rs`: an ephemeral secret, present until
taken. The scalar itself is opaque; it is identified by a number. -/
structure KeyExchangeState where
  secret : Option Nat
deriving DecidableEq

/-- `LoginKeychain` of `mi_crypto`, as used by `lib.rs`: the directional
key pair (`keys.app` encrypts app-to-device, `keys.dev` decrypts
device-to-app traffic). -/
structure LoginKeychain where
  app : Bytes
  dev : Bytes
deriving DecidableEq

/-- One heap cell of the boundary: a live `KeyExchangeState` box, a live
`SessionState` box, or deallocated memory. -/
inductive Slot where
  | kx (s : KeyExchangeState)
  | session (keys : LoginKeychain)
  | freed
deriving DecidableEq

/-- Boundary state: the heap of boxes handed out as pointers (address
`i + 1` holds `heap[i]`; addresses are never reused, which loses no
generality for the properties below), plus the entropy stream feeding
`gen_key_pair`'s random source. -/
structure FfiState where
  heap : List Slot
  entropy : List Nat
deriving DecidableEq

/-- The slot a nonzero address points at, if the address was ever
issued. -/
def FfiState.slotAt (st : FfiState) (p : Int) : Option Slot :=
  if p < 1 then none else st.heap[p.toNat - 1]?

/-- Overwrite the slot at an issued address. -/
def FfiState.setSlot (st : FfiState) (p : Int) (s : Slot) : FfiState :=
  { st with heap := st.heap.set (p.toNat - 1) s }

/-- Result of a boundary call returning a `jbyteArray`: either a byte
array handed back to Java (`bytes []` is the failure sentinel), or
undefined behaviour from an invalid dereference/free. -/
inductive FfiResult where
  | bytes (b : Bytes)
  | ub
deriving DecidableEq

/-- `true` when the call returned an array (possibly the failure
sentinel) rather than hitting undefined behaviour. -/
def FfiResult.noCrash : FfiResult → Bool
  | .bytes _ => true
  | .ub => false

/-- The returned bytes past the 8-byte big-endian handle that `lib.rs`
puts in front of `prepareHandshake` and `login` outputs. -/
def FfiResult.dropHandle : FfiResult → Bytes
  | .bytes b => b.drop 8
  | .ub => []

/-- Outcome of `freeSession`, which returns nothing: either a normal
return or undefined behaviour (double free / invalid free). -/
inductive FreeOutcome where
  | ok
  | ub
deriving DecidableEq

/-- `ptr.to_be_bytes()` for a `jlong` (`i64`): the 8 bytes of the two's
complement representation, most significant first. -/
def i64ToBeBytes (n : Int) : Bytes :=
  let u := (n % 2 ^ 64).toNat
  [u / 2 ^ 56 % 256, u / 2 ^ 48 % 256, u / 2 ^ 40 % 256, u / 2 ^ 32 % 256,
   u / 2 ^ 24 % 256, u / 2 ^ 16 % 256, u / 2 ^ 8 % 256, u % 256]

/-- `counter as u32` on a `jlong`: the low 32 bits of the two's
complement representation. -/
def u32OfJlong (c : Int) : Nat := (c % 2 ^ 32).toNat

/-- The `mi_crypto` core as seen from its call sites in `lib.rs`.
`mi_crypto.rs` is not among the sources, so each function is an abstract
parameter; a result of `none` models a Rust panic inside the call (which
`lib.rs` fences with `catch_unwind`). `decrypt_uart` returns a `Result`,
so a non-panicking call can still fail. -/
structure MiCrypto where
  genKeyPair : Nat → Option (Nat × Bytes)
  calcDid : Nat → Bytes → Bytes → Option (Bytes × Bytes)
  calcLoginDid : Bytes → Bytes → Bytes → Option ((Bytes × Bytes × LoginKeychain) × (Bytes × Bytes))
  encryptUart : Bytes → Bytes → Nat → Option Bytes
  decryptUart : Bytes → Bytes → Option (Except Unit Bytes)

/-- The four Java byte arrays passed to `login`, owned by the caller.
`convert_byte_array` copies them into fresh Rust `Vec`s, so the model
returns the record unchanged alongside the call's result. -/
structure JavaArrays where
  token : Bytes
  randKey : Bytes
  remoteKey : Bytes
  remoteInfo : Bytes
deriving DecidableEq

/-- `Java_com_m365bleapp_ffi_M365Native_prepareHandshake`: generate an
ephemeral key pair, box the context, and return the box's address
followed by the uncompressed public point. A panic in `gen_key_pair` is
caught and becomes the empty failure array. -/
def prepareHandshake (C : MiCrypto) (st : FfiState) : FfiState × FfiResult :=
  let e := st.entropy.headD 0
  let st1 : FfiState := { st with entropy := st.entropy.tail }
  match C.genKeyPair e with
  | none => (st1, .bytes [])
  | some (secret, pk) =>
      let ptr : Int := st1.heap.length + 1
      ({ st1 with heap := st1.heap ++ [Slot.kx ⟨some secret⟩] },
       .bytes (i64ToBeBytes ptr ++ pk))

/-- `Java_com_m365bleapp_ffi_M365Native_processHandshake`: a null context
pointer returns the failure array; otherwise the pointer is reconstituted
with `Box::from_raw`, so the box is dropped — the slot deallocated — on
every path through the rest of the function, and a pointer that is not a
live `KeyExchangeState` box is undefined behaviour. The taken secret
feeds `calc_did` (fenced by `catch_unwind`); the output is the 12-byte
token followed by the device-id ciphertext. -/
def processHandshake (C : MiCrypto) (st : FfiState) (ctxPtr : Int)
    (remoteKey remoteInfo : Bytes) : FfiState × FfiResult :=
  if ctxPtr = 0 then (st, .bytes [])
  else
    match st.slotAt ctxPtr with
    | some (Slot.kx kxs) =>
        let st1 := st.setSlot ctxPtr Slot.freed
        match kxs.secret with
        | none => (st1, .bytes [])
        | some secret =>
            match C.calcDid secret remoteKey remoteInfo with
            | none => (st1, .bytes [])
            | some (didCt, token) => (st1, .bytes (token ++ didCt))
    | _ => (st, .ub)

/-- `Java_com_m365bleapp_ffi_M365Native_login`: copies the four caller
arrays, rejects a token whose length is not 12, runs `calc_login_did` on
the copies (it may scribble on them; the copies are then dropped), boxes
the resulting keychain, and returns the box's address followed by the
login response info. The whole body sits inside `catch_unwind`. -/
def login (C : MiCrypto) (st : FfiState) (arrs : JavaArrays) :
    FfiState × FfiResult × JavaArrays :=
  let tokenVec := arrs.token
  let randKeyVec := arrs.randKey
  let remoteKeyVec := arrs.remoteKey
  if tokenVec.length ≠ 12 then (st, .bytes [], arrs)
  else
    match C.calcLoginDid randKeyVec remoteKeyVec tokenVec with
    | none => (st, .bytes [], arrs)
    | some ((info, _expectedRemoteInfo, keys), _mutatedCopies) =>
        let ptr : Int := st.heap.length + 1
        ({ st with heap := st.heap ++ [Slot.session keys] },
         .bytes (i64ToBeBytes ptr ++ info), arrs)

/-- `Java_com_m365bleapp_ffi_M365Native_encrypt`: a null session pointer
returns the failure array; any other pointer is dereferenced as a
`SessionState` (shared borrow, nothing freed) — undefined behaviour
unless it is a live session box. The counter `jlong` is truncated with
`as u32` before `encrypt_uart` (fenced by `catch_unwind`) runs under the
app-direction key. -/
def encrypt (C : MiCrypto) (st : FfiState) (sessionPtr : Int)
    (payload : Bytes) (counter : Int) : FfiState × FfiResult :=
  if sessionPtr = 0 then (st, .bytes [])
  else
    match st.slotAt sessionPtr with
    | some (Slot.session keys) =>
        match C.encryptUart keys.app payload (u32OfJlong counter) with
        | none => (st, .bytes [])
        | some ct => (st, .bytes ct)
    | _ => (st, .ub)

/-- `Java_com_m365bleapp_ffi_M365Native_decrypt`: same pointer discipline
as `encrypt`; `decrypt_uart` runs under the device-direction key, and
both a decryption error and a caught panic collapse into the empty
failure array. -/
def decrypt (C : MiCrypto) (st : FfiState) (sessionPtr : Int)
    (encryptedArr : Bytes) : FfiState × FfiResult :=
  if sessionPtr = 0 then (st, .bytes [])
  else
    match st.slotAt sessionPtr with
    | some (Slot.session keys) =>
        match C.decryptUart keys.dev encryptedArr with
        | some (Except.ok pt) => (st, .bytes pt)
        | some (Except.error _) => (st, .bytes [])
        | none => (st, .bytes [])
    | _ => (st, .ub)

/-- `Java_com_m365bleapp_ffi_M365Native_freeSession`: a null pointer is
ignored; any other pointer is handed to `Box::from_raw::<SessionState>`
and dropped — release of a live session box, undefined behaviour (double
or invalid free) for anything else. -/
def freeSession (st : FfiState) (ptr : Int) : FfiState × FreeOutcome :=
  if ptr = 0 then (st, .ok)
  else
    match st.slotAt ptr with
    | some (Slot.session _) => (st.setSlot ptr Slot.freed, .ok)
    | _ => (st, .ub)

/-- Modelled from the spec: a concrete instantiation of the `mi_crypto`
core (`mi_crypto.rs` is not among the sources) for evaluating the
boundary on closed inputs. Per spec section 4.2–4.4 every operation is a
deterministic function of its arguments; `encryptUart` builds its nonce
from the counter alone and appends the counter's serialization as a
stand-in tag, and the token is 12 bytes. -/
def specCrypto : MiCrypto where
  genKeyPair := fun e => some (e, 0x04 :: List.replicate 64 (e % 256))
  calcDid := fun s rk ri => some (rk ++ ri ++ [s % 256], List.replicate 12 (s % 256))
  calcLoginDid := fun r k t => some ((t ++ r, k, ⟨r ++ k ++ t, k ++ r ++ t⟩), (k, r))
  encryptUart := fun key payload ctr =>
      some (payload.map (fun b => (b + key.headD 0 + ctr) % 256) ++
        [ctr % 256, ctr / 2 ^ 8 % 256, ctr / 2 ^ 16 % 256, ctr / 2 ^ 24 % 256])
  decryptUart := fun key ct =>
      some (Except.ok (ct.map (fun b => (b + 256 - key.headD 0 % 256) % 256)))

/-! ## Claims -/

/-- C8: the command envelope encoding matches the known vectors — lock
(0x70) with payload `[0x01, 0x00]` encodes to `04 20 03 70 01 00`,
likewise unlock (0x71) and tail-light on/off (0x7D) — and the leading
length byte always equals `payload.length + 2`. -/
theorem C8_command_envelope_vectors :
    (ScooterCommand.as_bytes ⟨.MasterToMotor, .Write, .Lock, [0x01, 0x00]⟩ =
      [0x04, 0x20, 0x03, 0x70, 0x01, 0x00]) ∧
    (ScooterCommand.as_bytes ⟨.MasterToMotor, .Write, .Unlock, [0x01, 0x00]⟩ =
      [0x04, 0x20, 0x03, 0x71, 0x01, 0x00]) ∧
    (ScooterCommand.as_bytes ⟨.MasterToMotor, .Write, .TailLight, [0x02, 0x00]⟩ =
      [0x04, 0x20, 0x03, 0x7D, 0x02, 0x00]) ∧
    (ScooterCommand.as_bytes ⟨.MasterToMotor, .Write, .TailLight, [0x00, 0x00]⟩ =
      [0x04, 0x20, 0x03, 0x7D, 0x00, 0x00]) ∧
    ∀ (d : Direction) (rw : ReadWrite) (a : Attribute) (payload : Bytes),
      (ScooterCommand.as_bytes ⟨d, rw, a, payload⟩).head? =
        some (payload.length + 2) :=
  ⟨by decide, by decide, by decide, by decide, fun _ _ _ _ => rfl⟩

/-- C10: the convenience methods are exactly the primitive commands —
`set_lock true` is `lock`, `set_lock false` is `unlock`, `set_light
true` is `light_on`, `set_light false` is `light_off` — on every
session. -/
theorem C10_convenience_methods_equal_primitives :
    ∀ (s : MiSession),
      (s.set_lock true = s.lock) ∧ (s.set_lock false = s.unlock) ∧
      (s.set_light true = s.light_on) ∧ (s.set_light false = s.light_off) :=
  fun _ => ⟨rfl, rfl, rfl, rfl⟩

/-- C4: `login` with a token whose length is not 12 fails with the
(empty) failure result for every crypto core, state and other inputs;
the state is unchanged (no session handle is created) and the result
does not depend on the key-derivation core, so the failure happens
before any derivation work. -/
theorem C4_login_rejects_wrong_token_length (C : MiCrypto) (st : FfiState)
    (arrs : JavaArrays) (h : arrs.token.length ≠ 12) :
    login C st arrs = (st, FfiResult.bytes [], arrs) := by
  simp [login, h]

/-- Witness for C4 at a concrete 3-byte token. -/
theorem C4_login_rejects_wrong_token_length_witness :
    (JavaArrays.mk [1, 2, 3] [4] [5] [6]).token.length ≠ 12 ∧
    login specCrypto ⟨[], []⟩ ⟨[1, 2, 3], [4], [5], [6]⟩ =
      (⟨[], []⟩, FfiResult.bytes [], ⟨[1, 2, 3], [4], [5], [6]⟩) :=
  ⟨by decide,
   C4_login_rejects_wrong_token_length specCrypto ⟨[], []⟩
     ⟨[1, 2, 3], [4], [5], [6]⟩ (by decide)⟩

/-- C9: the boundary `encrypt` truncates its 64-bit counter to 32 bits
(`counter as u32`) before use, so any two counters congruent modulo
`2 ^ 32` yield identical results, for every crypto core, state, handle
and payload. -/
theorem C9_encrypt_counter_reduced_mod_2_pow_32 (C : MiCrypto)
    (st : FfiState) (sessionPtr : Int) (payload : Bytes) (c1 c2 : Int)
    (h : c1 % 2 ^ 32 = c2 % 2 ^ 32) :
    encrypt C st sessionPtr payload c1 = encrypt C st sessionPtr payload c2 := by
  have h' : c1 % 4294967296 = c2 % 4294967296 := by norm_num at h; exact_mod_cast h
  simp [encrypt, u32OfJlong, h']

/-- Witness for C9 with counters `5` and `5 + 2 ^ 32` on a live session. -/
theorem C9_encrypt_counter_reduced_mod_2_pow_32_witness :
    ((5 : Int) % 2 ^ 32 = (5 + 2 ^ 32) % 2 ^ 32) ∧
    encrypt specCrypto ⟨[Slot.session ⟨[9], [7]⟩], []⟩ 1 [1, 2] 5 =
      encrypt specCrypto ⟨[Slot.session ⟨[9], [7]⟩], []⟩ 1 [1, 2] (5 + 2 ^ 32) :=
  ⟨by decide,
   C9_encrypt_counter_reduced_mod_2_pow_32 specCrypto
     ⟨[Slot.session ⟨[9], [7]⟩], []⟩ 1 [1, 2] 5 (5 + 2 ^ 32) (by decide)⟩

/-- Dropping the 8-byte handle in front of a boundary output. -/
theorem i64ToBeBytes_append_drop_eight (n : Int) (b : Bytes) :
    (i64ToBeBytes n ++ b).drop 8 = b := by
  rw [show (8 : Nat) = (i64ToBeBytes n).length from rfl, List.drop_left]

/-- A nonzero address: a slot lookup can only succeed at an address
that is at least 1. -/
theorem slotAt_ne_zero {st : FfiState} {p : Int} {s : Slot}
    (h : st.slotAt p = some s) : ¬p = 0 := by
  intro hp
  rw [hp] at h
  simp [FfiState.slotAt] at h

/-- C7: boundary `encrypt` is deterministic with no internal randomness:
its result depends only on the session's directional key, the payload
and the counter — two calls through any two states and handles holding
the same keychain agree — and it neither consumes entropy nor changes
any state, so repeated calls with identical inputs return identical
ciphertext. -/
theorem C7_encrypt_deterministic (C : MiCrypto) (st1 st2 : FfiState)
    (p1 p2 : Int) (keys : LoginKeychain) (payload : Bytes) (counter : Int)
    (h1 : st1.slotAt p1 = some (Slot.session keys))
    (h2 : st2.slotAt p2 = some (Slot.session keys)) :
    (encrypt C st1 p1 payload counter).2 = (encrypt C st2 p2 payload counter).2 ∧
    (encrypt C st1 p1 payload counter).1 = st1 := by
  have hp1 := slotAt_ne_zero h1
  have hp2 := slotAt_ne_zero h2
  constructor
  · simp only [encrypt, if_neg hp1, if_neg hp2, h1, h2]
    cases C.encryptUart keys.app payload (u32OfJlong counter) <;> rfl
  · simp only [encrypt, if_neg hp1, h1]
    cases C.encryptUart keys.app payload (u32OfJlong counter) <;> rfl

/-- Witness for C7: the same keychain reached through two different
states and handles (and, in the first state, alongside unconsumed
entropy) yields the same ciphertext. -/
theorem C7_encrypt_deterministic_witness :
    (FfiState.mk [Slot.session ⟨[9], [7]⟩] [3]).slotAt 1 =
      some (Slot.session ⟨[9], [7]⟩) ∧
    (FfiState.mk [Slot.freed, Slot.session ⟨[9], [7]⟩] []).slotAt 2 =
      some (Slot.session ⟨[9], [7]⟩) ∧
    ((encrypt specCrypto ⟨[Slot.session ⟨[9], [7]⟩], [3]⟩ 1 [1, 2] 6).2 =
      (encrypt specCrypto ⟨[Slot.freed, Slot.session ⟨[9], [7]⟩], []⟩ 2 [1, 2] 6).2 ∧
     (encrypt specCrypto ⟨[Slot.session ⟨[9], [7]⟩], [3]⟩ 1 [1, 2] 6).1 =
      ⟨[Slot.session ⟨[9], [7]⟩], [3]⟩) :=
  ⟨by decide, by decide,
   C7_encrypt_deterministic specCrypto ⟨[Slot.session ⟨[9], [7]⟩], [3]⟩
     ⟨[Slot.freed, Slot.session ⟨[9], [7]⟩], []⟩ 1 2 ⟨[9], [7]⟩ [1, 2] 6
     (by decide) (by decide)⟩

/-- C6: `login`'s key derivation is a pure function of the local random,
the peer random and the token: the caller's Java arrays are returned
unchanged (the body works on copies), and both the derived keychain
appended to the heap and the response-info bytes past the handle agree
across any two states and any two argument records that agree on those
three inputs (the fourth array, `_remote_info`, is ignored). -/
theorem C6_login_pure_and_caller_buffers_unchanged (C : MiCrypto)
    (st st2 : FfiState) (arrs arrs2 : JavaArrays)
    (ht : arrs.token = arrs2.token) (hr : arrs.randKey = arrs2.randKey)
    (hk : arrs.remoteKey = arrs2.remoteKey) :
    ((login C st arrs).2.2 = arrs) ∧
    ((login C st arrs).1.heap.drop st.heap.length =
      (login C st2 arrs2).1.heap.drop st2.heap.length) ∧
    ((login C st arrs).2.1.dropHandle = (login C st2 arrs2).2.1.dropHandle) := by
  obtain ⟨t, r, k, i⟩ := arrs
  obtain ⟨t2, r2, k2, i2⟩ := arrs2
  simp only at ht hr hk
  subst ht hr hk
  refine ⟨?_, ?_, ?_⟩
  · simp only [login]
    split
    · rfl
    · split <;> rfl
  · simp only [login]
    split
    · simp [List.drop_length]
    · cases C.calcLoginDid r k t with
      | none => simp [List.drop_length]
      | some v =>
          obtain ⟨⟨info, e, keys⟩, m⟩ := v
          simp only []
          rw [show (st.heap ++ [Slot.session keys]).drop st.heap.length =
                [Slot.session keys] from List.drop_left _ _,
              show (st2.heap ++ [Slot.session keys]).drop st2.heap.length =
                [Slot.session keys] from List.drop_left _ _]
  · simp only [login]
    split
    · rfl
    · cases C.calcLoginDid r k t with
      | none => rfl
      | some v =>
          obtain ⟨⟨info, e, keys⟩, m⟩ := v
          simp only [FfiResult.dropHandle]
          rw [i64ToBeBytes_append_drop_eight, i64ToBeBytes_append_drop_eight]

/-- Witness for C6: two states and two argument records agreeing on the
three derivation inputs but differing in heap, entropy and the ignored
peer-info array. -/
theorem C6_login_pure_and_caller_buffers_unchanged_witness :
    (JavaArrays.mk [0, 1, 2, 3, 4, 5, 6, 7, 8, 9, 10, 11] [1] [2] [3]).token =
      (JavaArrays.mk [0, 1, 2, 3, 4, 5, 6, 7, 8, 9, 10, 11] [1] [2] [9]).token ∧
    (JavaArrays.mk [0, 1, 2, 3, 4, 5, 6, 7, 8, 9, 10, 11] [1] [2] [3]).randKey =
      (JavaArrays.mk [0, 1, 2, 3, 4, 5, 6, 7, 8, 9, 10, 11] [1] [2] [9]).randKey ∧
    (JavaArrays.mk [0, 1, 2, 3, 4, 5, 6, 7, 8, 9, 10, 11] [1] [2] [3]).remoteKey =
      (JavaArrays.mk [0, 1, 2, 3, 4, 5, 6, 7, 8, 9, 10, 11] [1] [2] [9]).remoteKey ∧
    (((login specCrypto ⟨[], [4]⟩
        ⟨[0, 1, 2, 3, 4, 5, 6, 7, 8, 9, 10, 11], [1], [2], [3]⟩).2.2 =
        ⟨[0, 1, 2, 3, 4, 5, 6, 7, 8, 9, 10, 11], [1], [2], [3]⟩) ∧
     ((login specCrypto ⟨[], [4]⟩
        ⟨[0, 1, 2, 3, 4, 5, 6, 7, 8, 9, 10, 11], [1], [2], [3]⟩).1.heap.drop
          (FfiState.mk [] [4]).heap.length =
      (login specCrypto ⟨[Slot.freed], []⟩
        ⟨[0, 1, 2, 3, 4, 5, 6, 7, 8, 9, 10, 11], [1], [2], [9]⟩).1.heap.drop
          (FfiState.mk [Slot.freed] []).heap.length) ∧
     ((login specCrypto ⟨[], [4]⟩
        ⟨[0, 1, 2, 3, 4, 5, 6, 7, 8, 9, 10, 11], [1], [2], [3]⟩).2.1.dropHandle =
      (login specCrypto ⟨[Slot.freed], []⟩
        ⟨[0, 1, 2, 3, 4, 5, 6, 7, 8, 9, 10, 11], [1], [2], [9]⟩).2.1.dropHandle)) :=
  ⟨rfl, rfl, rfl,
   C6_login_pure_and_caller_buffers_unchanged specCrypto ⟨[], [4]⟩
     ⟨[Slot.freed], []⟩ ⟨[0, 1, 2, 3, 4, 5, 6, 7, 8, 9, 10, 11], [1], [2], [3]⟩
     ⟨[0, 1, 2, 3, 4, 5, 6, 7, 8, 9, 10, 11], [1], [2], [9]⟩ rfl rfl rfl⟩

/-- C1 (code as written): `processHandshake` reconstitutes the context
with `Box::from_raw` and never leaks it back, so the first call already
deallocates the context — the slot is freed even though the call
succeeded with a token — and a second call on the same context pointer
is a use-after-free (undefined behaviour), not the empty
`HandshakeAlreadyConsumed` failure the `secret == None` branch was
written to produce. -/
theorem C1_second_processHandshake_is_use_after_free :
    ((processHandshake specCrypto (prepareHandshake specCrypto ⟨[], [5]⟩).1
        1 [2] [3]).2 ≠ FfiResult.bytes []) ∧
    ((processHandshake specCrypto (prepareHandshake specCrypto ⟨[], [5]⟩).1
        1 [2] [3]).1.slotAt 1 = some Slot.freed) ∧
    ((processHandshake specCrypto
        (processHandshake specCrypto (prepareHandshake specCrypto ⟨[], [5]⟩).1
          1 [2] [3]).1 1 [2] [3]).2 = FfiResult.ub) ∧
    FfiResult.ub ≠ FfiResult.bytes [] := by decide

/-- C2 counterexample: freeing the same session handle twice is a double
free — undefined behaviour — not the safe no-op the claim states. -/
theorem C2_double_free_counterexample :
    ((freeSession (freeSession ⟨[Slot.session ⟨[1], [2]⟩], []⟩ 1).1 1).2 =
      FreeOutcome.ub) ∧
    FreeOutcome.ub ≠ FreeOutcome.ok := by decide

/-- C2 amended: `freeSession` on the null handle is a no-op that
returns normally; on a live session handle it releases the state exactly
once (the slot becomes freed); but on an already-freed or never-issued
nonzero handle it is undefined behaviour (double or invalid free), not a
safe no-op. -/
theorem C2_freeSession_amended (st : FfiState) (p q : Int)
    (keys : LoginKeychain) (hp : st.slotAt p = some (Slot.session keys))
    (hq : st.slotAt q = none) (hq0 : q ≠ 0) :
    freeSession st 0 = (st, FreeOutcome.ok) ∧
    freeSession st p = (st.setSlot p Slot.freed, FreeOutcome.ok) ∧
    (st.setSlot p Slot.freed).slotAt p = some Slot.freed ∧
    (freeSession (st.setSlot p Slot.freed) p).2 = FreeOutcome.ub ∧
    (freeSession st q).2 = FreeOutcome.ub := by
  have hp0 := slotAt_ne_zero hp
  have hplt : ¬p < 1 := by
    intro h
    simp [FfiState.slotAt, if_pos h] at hp
  have hbound : p.toNat - 1 < st.heap.length := by
    have h' := hp
    simp only [FfiState.slotAt, if_neg hplt] at h'
    exact (List.getElem?_eq_some.mp h').1
  have hfreed : (st.setSlot p Slot.freed).slotAt p = some Slot.freed := by
    simp only [FfiState.slotAt, FfiState.setSlot, if_neg hplt]
    exact List.getElem?_set_eq_of_lt _ hbound
  refine ⟨by simp [freeSession], ?_, hfreed, ?_, ?_⟩
  · simp [freeSession, hp0, hp]
  · simp [freeSession, hp0, hfreed]
  · simp [freeSession, hq0, hq]

/-- Witness for the amended C2 on a one-slot heap with the never-issued
handle 3. -/
theorem C2_freeSession_amended_witness :
    (FfiState.mk [Slot.session ⟨[], []⟩] []).slotAt 1 =
      some (Slot.session ⟨[], []⟩) ∧
    (FfiState.mk [Slot.session ⟨[], []⟩] []).slotAt 3 = none ∧
    (3 : Int) ≠ 0 ∧
    (freeSession ⟨[Slot.session ⟨[], []⟩], []⟩ 0 =
      (⟨[Slot.session ⟨[], []⟩], []⟩, FreeOutcome.ok) ∧
     freeSession ⟨[Slot.session ⟨[], []⟩], []⟩ 1 =
      ((FfiState.mk [Slot.session ⟨[], []⟩] []).setSlot 1 Slot.freed,
        FreeOutcome.ok) ∧
     ((FfiState.mk [Slot.session ⟨[], []⟩] []).setSlot 1 Slot.freed).slotAt 1 =
      some Slot.freed ∧
     (freeSession ((FfiState.mk [Slot.session ⟨[], []⟩] []).setSlot 1
        Slot.freed) 1).2 = FreeOutcome.ub ∧
     (freeSession ⟨[Slot.session ⟨[], []⟩], []⟩ 3).2 = FreeOutcome.ub) :=
  ⟨by decide, by decide, by decide,
   C2_freeSession_amended ⟨[Slot.session ⟨[], []⟩], []⟩ 1 3 ⟨[], []⟩
     (by decide) (by decide) (by decide)⟩

/-- C3 counterexample: `encrypt` called with the never-issued handle 7
on an empty heap dereferences the caller-supplied value — undefined
behaviour — instead of failing with an `InvalidHandle`-style result. -/
theorem C3_encrypt_never_issued_handle_counterexample :
    ((encrypt specCrypto ⟨[], []⟩ 7 [1] 0).2 = FfiResult.ub) ∧
    FfiResult.ub ≠ FfiResult.bytes [] := by decide

/-- C3 amended: `encrypt` and `decrypt` reject only the null handle
(returning the empty failure array without touching any state); every
other unknown or already-freed handle value is dereferenced as session
state, which is undefined behaviour rather than an `InvalidHandle`
failure. -/
theorem C3_handle_check_amended (C : MiCrypto) (st : FfiState)
    (payload ct : Bytes) (counter : Int) (p : Int) (hp : p ≠ 0)
    (hd : st.slotAt p = none ∨ st.slotAt p = some Slot.freed) :
    encrypt C st 0 payload counter = (st, FfiResult.bytes []) ∧
    decrypt C st 0 ct = (st, FfiResult.bytes []) ∧
    (encrypt C st p payload counter).2 = FfiResult.ub ∧
    (decrypt C st p ct).2 = FfiResult.ub := by
  rcases hd with hd | hd <;>
    exact ⟨by simp [encrypt], by simp [decrypt],
           by simp [encrypt, hp, hd], by simp [decrypt, hp, hd]⟩

/-- Witness for the amended C3: a freed slot at handle 1. -/
theorem C3_handle_check_amended_witness :
    (1 : Int) ≠ 0 ∧
    ((FfiState.mk [Slot.freed] []).slotAt 1 = none ∨
      (FfiState.mk [Slot.freed] []).slotAt 1 = some Slot.freed) ∧
    (encrypt specCrypto ⟨[Slot.freed], []⟩ 0 [1] 0 =
      (⟨[Slot.freed], []⟩, FfiResult.bytes []) ∧
     decrypt specCrypto ⟨[Slot.freed], []⟩ 0 [2] =
      (⟨[Slot.freed], []⟩, FfiResult.bytes []) ∧
     (encrypt specCrypto ⟨[Slot.freed], []⟩ 1 [1] 0).2 = FfiResult.ub ∧
     (decrypt specCrypto ⟨[Slot.freed], []⟩ 1 [2]).2 = FfiResult.ub) :=
  ⟨by decide, Or.inr (by decide),
   C3_handle_check_amended specCrypto ⟨[Slot.freed], []⟩ [1] [2] 0 1
     (by decide) (Or.inr (by decide))⟩

/-- C5 counterexample: `decrypt` on a handle that was freed by
`freeSession` dereferences freed memory — undefined behaviour that can
crash the host process — so the boundary does not convert every internal
fault into a failure result. -/
theorem C5_crash_propagation_counterexample :
    ((decrypt specCrypto (freeSession ⟨[Slot.session ⟨[1], [2]⟩], []⟩ 1).1
        1 [9]).2 = FfiResult.ub) ∧
    FfiResult.noCrash FfiResult.ub = false := by decide

/-- C5 amended: for every behaviour of the crypto core — including a
panic, modelled as `none`, in any core call — `prepareHandshake` and
`login` always return a byte-array result (data or the empty failure),
and `processHandshake`, `encrypt`, `decrypt` and `freeSession` do so
whenever the handle argument is null or live; only a dangling nonzero
handle escapes this fault isolation (undefined behaviour). -/
theorem C5_fault_isolation_amended (C : MiCrypto) (st : FfiState)
    (arrs : JavaArrays) (p q : Int) (kxs : KeyExchangeState)
    (keys : LoginKeychain) (rk ri payload ct : Bytes) (counter : Int)
    (hp : st.slotAt p = some (Slot.kx kxs))
    (hq : st.slotAt q = some (Slot.session keys)) :
    ((prepareHandshake C st).2.noCrash = true) ∧
    ((login C st arrs).2.1.noCrash = true) ∧
    ((processHandshake C st 0 rk ri).2.noCrash = true) ∧
    ((processHandshake C st p rk ri).2.noCrash = true) ∧
    ((encrypt C st 0 payload counter).2.noCrash = true) ∧
    ((encrypt C st q payload counter).2.noCrash = true) ∧
    ((decrypt C st 0 ct).2.noCrash = true) ∧
    ((decrypt C st q ct).2.noCrash = true) ∧
    ((freeSession st 0).2 = FreeOutcome.ok) ∧
    ((freeSession st q).2 = FreeOutcome.ok) := by
  have hp0 := slotAt_ne_zero hp
  have hq0 := slotAt_ne_zero hq
  refine ⟨?_, ?_, ?_, ?_, ?_, ?_, ?_, ?_, ?_, ?_⟩
  · simp only [prepareHandshake]
    cases C.genKeyPair (st.entropy.headD 0) with
    | none => rfl
    | some v => cases v; rfl
  · simp only [login]
    split
    · rfl
    · cases C.calcLoginDid arrs.randKey arrs.remoteKey arrs.token with
      | none => rfl
      | some v => obtain ⟨⟨_, _, _⟩, _⟩ := v; rfl
  · simp [processHandshake, FfiResult.noCrash]
  · simp only [processHandshake, if_neg hp0, hp]
    obtain ⟨sec⟩ := kxs
    cases sec with
    | none => rfl
    | some s =>
        dsimp only
        cases h : C.calcDid s rk ri with
        | none => simp [h, FfiResult.noCrash]
        | some v => obtain ⟨didCt, token⟩ := v; simp [h, FfiResult.noCrash]
  · simp [encrypt, FfiResult.noCrash]
  · simp only [encrypt, if_neg hq0, hq]
    cases C.encryptUart keys.app payload (u32OfJlong counter) <;> rfl
  · simp [decrypt, FfiResult.noCrash]
  · simp only [decrypt, if_neg hq0, hq]
    cases C.decryptUart keys.dev ct with
    | none => rfl
    | some r => cases r <;> rfl
  · simp [freeSession]
  · simp [freeSession, hq0, hq]

/-- Witness for the amended C5 on a heap holding a live key-exchange
context at handle 1 and a live session at handle 2. -/
theorem C5_fault_isolation_amended_witness :
    (FfiState.mk [Slot.kx ⟨some 1⟩, Slot.session ⟨[1], [2]⟩] [0]).slotAt 1 =
      some (Slot.kx ⟨some 1⟩) ∧
    (FfiState.mk [Slot.kx ⟨some 1⟩, Slot.session ⟨[1], [2]⟩] [0]).slotAt 2 =
      some (Slot.session ⟨[1], [2]⟩) ∧
    (((prepareHandshake specCrypto
        ⟨[Slot.kx ⟨some 1⟩, Slot.session ⟨[1], [2]⟩], [0]⟩).2.noCrash = true) ∧
     ((login specCrypto ⟨[Slot.kx ⟨some 1⟩, Slot.session ⟨[1], [2]⟩], [0]⟩
        ⟨[9], [1], [2], [3]⟩).2.1.noCrash = true) ∧
     ((processHandshake specCrypto
        ⟨[Slot.kx ⟨some 1⟩, Slot.session ⟨[1], [2]⟩], [0]⟩ 0 [4] [5]).2.noCrash =
        true) ∧
     ((processHandshake specCrypto
        ⟨[Slot.kx ⟨some 1⟩, Slot.session ⟨[1], [2]⟩], [0]⟩ 1 [4] [5]).2.noCrash =
        true) ∧
     ((encrypt specCrypto ⟨[Slot.kx ⟨some 1⟩, Slot.session ⟨[1], [2]⟩], [0]⟩
        0 [6] 7).2.noCrash = true) ∧
     ((encrypt specCrypto ⟨[Slot.kx ⟨some 1⟩, Slot.session ⟨[1], [2]⟩], [0]⟩
        2 [6] 7).2.noCrash = true) ∧
     ((decrypt specCrypto ⟨[Slot.kx ⟨some 1⟩, Slot.session ⟨[1], [2]⟩], [0]⟩
        0 [8]).2.noCrash = true) ∧
     ((decrypt specCrypto ⟨[Slot.kx ⟨some 1⟩, Slot.session ⟨[1], [2]⟩], [0]⟩
        2 [8]).2.noCrash = true) ∧
     ((freeSession ⟨[Slot.kx ⟨some 1⟩, Slot.session ⟨[1], [2]⟩], [0]⟩ 0).2 =
        FreeOutcome.ok) ∧
     ((freeSession ⟨[Slot.kx ⟨some 1⟩, Slot.session ⟨[1], [2]⟩], [0]⟩ 2).2 =
        FreeOutcome.ok)) :=
  ⟨by decide, by decide,
   C5_fault_isolation_amended specCrypto
     ⟨[Slot.kx ⟨some 1⟩, Slot.session ⟨[1], [2]⟩], [0]⟩ ⟨[9], [1], [2], [3]⟩
     1 2 ⟨some 1⟩ ⟨[1], [2]⟩ [4] [5] [6] [8] 7 (by decide) (by decide)⟩

end M365
